import Mathlib

/-
Shallow embedding of the CSV handler core (src/main.rs).

Modelling choices:
- A cell and a file line are lists of characters (`Cell`); file I/O is
  stripped, so `from_file` becomes `from_lines` over the file's lines and
  `to_file` becomes `to_lines` producing the written lines.
- Rust `usize` arithmetic wraps at 2 ^ 64 (release build semantics); the
  wrapping subtraction and addition used by `paginate` are `usub`/`uadd`.
- A Rust panic (out-of-bounds indexing in `calculate_max_col_width` and
  `format_row`, or the underflowing pad subtraction) is `Option.none`.
- The mutating methods `modify` and `delete` take the receiver and return
  the pair (Result, receiver after the call); the early `bail!` paths
  return the receiver unchanged, exactly as the Rust early returns do.
-/

/-- A cell of the table, and likewise one line of the file. -/
abbrev Cell := List Char

/-- The custom error kinds (`enum Error` in main.rs). -/
inductive Err where
  | rowIndexOutOfBound
  | columnIndexOutOfBound
  | valueLengthMismatch
  | replacementLengthMismatch
deriving DecidableEq, Repr

/-- `struct CSVData { data, rows, cols }`. -/
structure CSVData where
  data : List (List Cell)
  rows : Nat
  cols : Nat
deriving DecidableEq, Repr

/-- Rust `str::trim`: drop leading and trailing whitespace. -/
def trim (s : Cell) : Cell :=
  ((s.dropWhile Char.isWhitespace).reverse.dropWhile Char.isWhitespace).reverse

/-- Rust `line.split(',')`: split at every literal comma; the result is
never the empty list (a line with no comma yields one piece). -/
def splitComma : Cell → List Cell
  | [] => [[]]
  | c :: rest =>
    let r := splitComma rest
    if c = ',' then [] :: r
    else (c :: r.headI) :: r.tail

/-- Rust `row.join(",")`: rejoin pieces with a literal comma. -/
def joinComma : List Cell → Cell
  | [] => []
  | [p] => p
  | p :: ps => p ++ ',' :: joinComma ps

/-- `CSVData::from_file`, with the I/O stripped: the parsing loop over the
file's lines. Each line is split on commas and each piece trimmed; `rows`
counts the lines and `cols` is the first parsed row's length (0 when the
file is empty). -/
def CSVData.from_lines (lines : List Cell) : CSVData :=
  { data := lines.map fun l => (splitComma l).map trim
    rows := lines.length
    cols :=
      match lines with
      | [] => 0
      | l :: _ => ((splitComma l).map trim).length }

/-- `CSVData::to_file`, with the I/O stripped: the lines written out, one
per record, each record's cells rejoined with a comma. -/
def CSVData.to_lines (d : CSVData) : List Cell :=
  d.data.map joinComma

/-- Rust `format!("\"{}\"", v)`: the value wrapped in one pair of literal
double quotes. -/
def quote (v : Cell) : Cell :=
  '"' :: (v ++ ['"'])

/-- `CSVManipulation::modify`. Row bound first, then the match on
`(col_index, values.len())`: a single-cell edit for `(Some, 1)`, a whole-row
edit for `(None, _)`, and `ValueLengthMismatch` otherwise. Every `bail!`
leaves the receiver unchanged. -/
def CSVData.modify (d : CSVData) (row_index : Nat) (col_index : Option Nat)
    (values : List Cell) : Except Err Unit × CSVData :=
  if row_index = 0 ∨ row_index > d.data.length then
    (Except.error Err.rowIndexOutOfBound, d)
  else
    match col_index with
    | some index =>
      if values.length = 1 then
        if index = 0 ∨ index > (d.data.getD (row_index - 1) []).length then
          (Except.error Err.columnIndexOutOfBound, d)
        else
          (Except.ok (),
            { d with
              data := d.data.set (row_index - 1)
                ((d.data.getD (row_index - 1) []).set (index - 1)
                  (quote values.headI)) })
      else (Except.error Err.valueLengthMismatch, d)
    | none =>
      if values.length = (d.data.getD (row_index - 1) []).length then
        (Except.ok (),
          { d with data := d.data.set (row_index - 1) (values.map quote) })
      else
        (Except.error Err.replacementLengthMismatch, d)

/-- `CSVManipulation::delete`. Row bound check, then `Vec::remove` on the
data; the `rows` and `cols` fields are not touched by the Rust method. -/
def CSVData.delete (d : CSVData) (row_index : Nat) : Except Err Unit × CSVData :=
  if row_index = 0 ∨ row_index > d.data.length then
    (Except.error Err.rowIndexOutOfBound, d)
  else
    (Except.ok (), { d with data := d.data.eraseIdx (row_index - 1) })

/-- The inner loop of `calculate_max_col_width` for one row: cell `i`
updates `columns_width[i]` to the max of itself and the cell's length, in
index order, so the widths list is consumed positionally; a row longer than
the widths list indexes out of bounds (`none`). -/
def updateWidths : List Nat → List Cell → Option (List Nat)
  | ws, [] => some ws
  | [], _ :: _ => none
  | w :: ws, c :: cs =>
    (updateWidths ws cs).map fun t => Nat.max w c.length :: t

/-- The outer loop of `calculate_max_col_width` over all rows. -/
def calcWidths : List Nat → List (List Cell) → Option (List Nat)
  | ws, [] => some ws
  | ws, row :: rest =>
    match updateWidths ws row with
    | none => none
    | some ws' => calcWidths ws' rest

/-- `CSVData::calculate_max_col_width`: widths start at
`vec![0; self.cols]` and every row of the data updates them. -/
def CSVData.calculate_max_col_width (d : CSVData) : Option (List Nat) :=
  calcWidths (List.replicate d.cols 0) d.data

/-- The cell padding of `format_row`: each cell is right-padded with spaces
to `columns_width[index] - cell.len()`. Indexing past the widths list, or a
cell longer than its width (the subtraction underflows and the huge
`" ".repeat(..)` aborts), is a panic (`none`). -/
def padCells : List Cell → List Nat → Option (List Cell)
  | [], _ => some []
  | _ :: _, [] => none
  | c :: cs, w :: ws =>
    if c.length ≤ w then
      (padCells cs ws).map fun t => (c ++ List.replicate (w - c.length) ' ') :: t
    else none

/-- The `join("| ")` of `format_row`. -/
def joinPipe : List Cell → Cell
  | [] => []
  | [p] => p
  | p :: ps => p ++ '|' :: ' ' :: joinPipe ps

/-- `CSVData::format_row`: pad every cell of the row, then join the padded
cells with the separator pipe-space. -/
def CSVData.format_row (row : List Cell) (columns_width : List Nat) : Option Cell :=
  (padCells row columns_width).map joinPipe

/-- The printing loop shared by `display` and `paginate`: the formatted
line of every listed row, in order; a panic in any `format_row` is the
panic of the whole loop. -/
def formatRows (rows : List (List Cell)) (ws : List Nat) : Option (List Cell) :=
  match rows with
  | [] => some []
  | row :: rest => do
    let line ← CSVData.format_row row ws
    let lines ← formatRows rest ws
    pure (line :: lines)

/-- `CSVManipulation::display`: whole-dataset widths, then every row's
formatted line, in order. The result is the printed lines; the dataset is
taken read-only. -/
def CSVData.display (d : CSVData) : Option (List Cell) :=
  match calculate_max_col_width d with
  | none => none
  | some ws => formatRows d.data ws

/-- One past the largest `usize`. -/
def USIZE : Nat := 2 ^ 64

/-- Wrapping `usize` addition. -/
def uadd (a b : Nat) : Nat := (a + b) % USIZE

/-- Wrapping `usize` subtraction (release build: overflow checks off). -/
def usub (a b : Nat) : Nat := (a % USIZE + (USIZE - b % USIZE)) % USIZE

/-- `CSVManipulation::paginate`: whole-dataset widths, then
`skip(start - 1).take(end + 1 - start)` over the rows, both computed in
wrapping `usize` arithmetic, and the taken rows are formatted and printed.
The dataset is taken read-only. -/
def CSVData.paginate (d : CSVData) (start end_ : Nat) : Option (List Cell) :=
  match calculate_max_col_width d with
  | none => none
  | some ws =>
    let buffer_end := uadd end_ 1
    formatRows ((d.data.drop (usub start 1)).take (usub buffer_end start)) ws

/-! Splitting and rejoining: the lemmas behind the load/save round trip. -/

/-- Splitting a line that starts with a comma. -/
theorem splitComma_cons_comma (rest : Cell) :
    splitComma (',' :: rest) = [] :: splitComma rest := by
  simp [splitComma]

/-- Splitting a line that starts with a non-comma character. -/
theorem splitComma_cons_ne (c : Char) (rest : Cell) (h : ¬ c = ',') :
    splitComma (c :: rest) =
      (c :: (splitComma rest).headI) :: (splitComma rest).tail := by
  simp [splitComma, h]

/-- Splitting never produces the empty list of pieces. -/
theorem splitComma_ne_nil (s : Cell) : splitComma s ≠ [] := by
  cases s with
  | nil => simp [splitComma]
  | cons c rest =>
    by_cases h : c = ','
    · subst h; rw [splitComma_cons_comma]; simp
    · rw [splitComma_cons_ne c rest h]; simp

/-- Every piece produced by splitting is free of commas. -/
theorem not_comma_mem_splitComma : ∀ (s : Cell), ∀ p ∈ splitComma s, ',' ∉ p := by
  intro s
  induction s with
  | nil =>
    intro p hp
    simp only [splitComma, List.mem_singleton] at hp
    subst hp; simp
  | cons c rest ih =>
    intro p hp
    rcases hsr : splitComma rest with _ | ⟨piece, pieces⟩
    · exact absurd hsr (splitComma_ne_nil rest)
    by_cases h : c = ','
    · subst h
      rw [splitComma_cons_comma] at hp
      rcases List.mem_cons.mp hp with hp | hp
      · subst hp; simp
      · exact ih p hp
    · rw [splitComma_cons_ne c rest h, hsr] at hp
      simp only [List.headI, List.tail_cons] at hp
      rcases List.mem_cons.mp hp with hp | hp
      · subst hp
        intro hmem
        rcases List.mem_cons.mp hmem with hmem | hmem
        · exact h hmem.symm
        · exact ih piece (hsr ▸ List.mem_cons_self piece pieces) hmem
      · exact ih p (hsr ▸ List.mem_cons_of_mem piece hp)

/-- Rejoining a cons-of-cons pushes the head character out front. -/
theorem joinComma_cons_cons (c : Char) (p : Cell) (ps : List Cell) :
    joinComma ((c :: p) :: ps) = c :: joinComma (p :: ps) := by
  cases ps <;> simp [joinComma]

/-- Splitting a line on commas and rejoining with commas restores the line. -/
theorem joinComma_splitComma (s : Cell) : joinComma (splitComma s) = s := by
  induction s with
  | nil => simp [splitComma, joinComma]
  | cons c rest ih =>
    rcases hsr : splitComma rest with _ | ⟨piece, pieces⟩
    · exact absurd hsr (splitComma_ne_nil rest)
    rw [hsr] at ih
    by_cases h : c = ','
    · subst h
      rw [splitComma_cons_comma, hsr]
      simpa [joinComma] using ih
    · rw [splitComma_cons_ne c rest h, hsr]
      simp only [List.headI, List.tail_cons]
      rw [joinComma_cons_cons, ih]

/-- A comma-free line splits into exactly itself. -/
theorem splitComma_of_not_mem (p : Cell) (h : ',' ∉ p) : splitComma p = [p] := by
  induction p with
  | nil => simp [splitComma]
  | cons c t ih =>
    have hc : ¬ c = ',' := fun hc => h (hc ▸ List.mem_cons_self c t)
    have ht : ',' ∉ t := fun hm => h (List.mem_cons_of_mem c hm)
    rw [splitComma_cons_ne c t hc, ih ht]
    simp

/-- Splitting past a comma-free head piece peels that piece off. -/
theorem splitComma_append (p s : Cell) (h : ',' ∉ p) :
    splitComma (p ++ ',' :: s) = p :: splitComma s := by
  induction p with
  | nil => simpa using splitComma_cons_comma s
  | cons c t ih =>
    have hc : ¬ c = ',' := fun hc => h (hc ▸ List.mem_cons_self c t)
    have ht : ',' ∉ t := fun hm => h (List.mem_cons_of_mem c hm)
    rw [List.cons_append, splitComma_cons_ne c _ hc, ih ht]
    simp

/-- Rejoining comma-free pieces and splitting again restores the pieces. -/
theorem splitComma_joinComma : ∀ (ps : List Cell), ps ≠ [] →
    (∀ p ∈ ps, ',' ∉ p) → splitComma (joinComma ps) = ps := by
  intro ps
  induction ps with
  | nil => intro h; exact absurd rfl h
  | cons p ps' ih =>
    intro _ hall
    cases ps' with
    | nil =>
      simp only [joinComma]
      exact splitComma_of_not_mem p (hall p (List.mem_cons_self p []))
    | cons q qs =>
      have hj : joinComma (p :: q :: qs) = p ++ ',' :: joinComma (q :: qs) := by
        simp [joinComma]
      rw [hj, splitComma_append p _ (hall p (List.mem_cons_self p _))]
      have hrest : ∀ r ∈ q :: qs, ',' ∉ r := fun r hr =>
        hall r (List.mem_cons_of_mem p hr)
      rw [ih (by simp) hrest]

/-! Trimming: idempotence and containment. -/

/-- `trim` is the right-drop of whitespace after the left-drop. -/
theorem trim_eq_rdropWhile (s : Cell) :
    trim s = (s.dropWhile Char.isWhitespace).rdropWhile Char.isWhitespace := rfl

/-- A trimmed cell has no leading whitespace left. -/
theorem dropWhile_trim (s : Cell) :
    (trim s).dropWhile Char.isWhitespace = trim s := by
  rw [trim_eq_rdropWhile, List.dropWhile_eq_self_iff]
  intro hl
  have hpre := List.rdropWhile_prefix Char.isWhitespace (s.dropWhile Char.isWhitespace)
  have hlen : 0 < (s.dropWhile Char.isWhitespace).length :=
    lt_of_lt_of_le hl hpre.length_le
  have hget : ((s.dropWhile Char.isWhitespace).rdropWhile Char.isWhitespace).get ⟨0, hl⟩
      = (s.dropWhile Char.isWhitespace).get ⟨0, hlen⟩ := by
    simp only [List.get_eq_getElem]
    exact hpre.getElem hl
  rw [hget]
  exact List.dropWhile_get_zero_not Char.isWhitespace s hlen

/-- Trimming is idempotent. -/
theorem trim_trim (s : Cell) : trim (trim s) = trim s := by
  conv_lhs => rw [trim_eq_rdropWhile (trim s)]
  rw [dropWhile_trim, trim_eq_rdropWhile, List.rdropWhile_idempotent]

/-- Trimming only removes characters: membership is preserved downward. -/
theorem mem_of_mem_trim (s : Cell) (x : Char) (hx : x ∈ trim s) : x ∈ s := by
  rw [trim_eq_rdropWhile] at hx
  have h1 := (List.rdropWhile_prefix Char.isWhitespace
    (s.dropWhile Char.isWhitespace)).sublist.subset hx
  exact (List.dropWhile_suffix Char.isWhitespace).sublist.subset h1

/-- A comma-free cell stays comma-free after trimming. -/
theorem not_comma_trim (s : Cell) (h : ',' ∉ s) : ',' ∉ trim s :=
  fun hm => h (mem_of_mem_trim s ',' hm)

/-- Re-parsing the serialized form of a parsed row gives the row back. -/
theorem reparse_row (l : Cell) :
    (splitComma (joinComma ((splitComma l).map trim))).map trim
      = (splitComma l).map trim := by
  have hne : (splitComma l).map trim ≠ [] := by
    intro h
    exact splitComma_ne_nil l (List.map_eq_nil_iff.mp h)
  have hfree : ∀ p ∈ (splitComma l).map trim, ',' ∉ p := by
    intro p hp
    rcases List.mem_map.mp hp with ⟨q, hq, rfl⟩
    exact not_comma_trim q (not_comma_mem_splitComma l q hq)
  rw [splitComma_joinComma _ hne hfree, List.map_map]
  exact List.map_congr_left fun q _ => trim_trim q

/-- Loading is determined by the parsed rows: two line lists that parse to
the same rows (necessarily of the same length) load to the same dataset. -/
theorem from_lines_congr (xs ys : List Cell)
    (hlen : xs.length = ys.length)
    (hparse : xs.map (fun l => (splitComma l).map trim)
      = ys.map (fun l => (splitComma l).map trim)) :
    CSVData.from_lines xs = CSVData.from_lines ys := by
  cases xs with
  | nil =>
    cases ys with
    | nil => rfl
    | cons y ys' => simp at hlen
  | cons x xs' =>
    cases ys with
    | nil => simp at hlen
    | cons y ys' =>
      have hh : (splitComma x).map trim = (splitComma y).map trim := by
        simpa using congrArg (fun l => l.headI) hparse
      simp only [CSVData.from_lines, CSVData.mk.injEq]
      exact ⟨hparse, hlen, congrArg List.length hh⟩

/-- The round trip of claim C4: saving a freshly loaded dataset writes each
input line back with each of its comma-separated fields trimmed and nothing
else changed; reloading the saved lines reproduces the dataset (same cells,
same row order, same counts); and when every field was already trimmed the
saved lines are byte-for-byte the input lines. -/
theorem load_save_roundtrip (lines : List Cell) :
    CSVData.to_lines (CSVData.from_lines lines)
      = lines.map (fun l => joinComma ((splitComma l).map trim))
  ∧ CSVData.from_lines (CSVData.to_lines (CSVData.from_lines lines))
      = CSVData.from_lines lines
  ∧ ((∀ l ∈ lines, ∀ p ∈ splitComma l, trim p = p) →
      CSVData.to_lines (CSVData.from_lines lines) = lines) := by
  have h2 : CSVData.to_lines (CSVData.from_lines lines)
      = lines.map (fun l => joinComma ((splitComma l).map trim)) := by
    simp only [CSVData.to_lines, CSVData.from_lines, List.map_map]
    rfl
  refine ⟨h2, ?_, ?_⟩
  · rw [h2]
    apply from_lines_congr
    · rw [List.length_map]
    · rw [List.map_map]
      exact List.map_congr_left fun x _ => reparse_row x
  · intro h
    rw [h2]
    have hfix : ∀ l ∈ lines, joinComma ((splitComma l).map trim) = l := by
      intro l hl
      have hmap : (splitComma l).map trim = splitComma l := by
        have := List.map_congr_left (f := trim) (g := id) (h l hl)
        simpa using this
      rw [hmap, joinComma_splitComma]
    calc lines.map (fun l => joinComma ((splitComma l).map trim))
        = lines.map id := List.map_congr_left fun l hl => hfix l hl
      _ = lines := List.map_id lines

/-! Delete and the stored row count. -/

/-- Claim C1 fails on the code: on a freshly loaded two-line dataset the
invariant `rows = data.length` holds, a `delete 1` succeeds, yet afterwards
the stored `rows` field is still 2 while only 1 record remains — `delete`
does not decrement the stored row count. -/
theorem delete_breaks_rowcount_invariant :
    ((CSVData.from_lines [['a'], ['b']]).delete 1).1 = Except.ok ()
  ∧ (CSVData.from_lines [['a'], ['b']]).rows
      = (CSVData.from_lines [['a'], ['b']]).data.length
  ∧ ((CSVData.from_lines [['a'], ['b']]).delete 1).2.rows = 2
  ∧ ((CSVData.from_lines [['a'], ['b']]).delete 1).2.data.length = 1 :=
  ⟨rfl, rfl, rfl, rfl⟩

/-- The amended C1: `rows = data.length` is established by loading and both
counts are preserved by every `modify`; a valid `delete` removes one record
(`data.length` drops by one) but leaves the stored `rows` field untouched,
so it is `delete` that breaks the invariant instead of keeping it in sync. -/
theorem rowcount_invariant_status :
    (∀ lines : List Cell,
      (CSVData.from_lines lines).rows = (CSVData.from_lines lines).data.length)
  ∧ (∀ (d : CSVData) (r : Nat) (c : Option Nat) (vs : List Cell),
      (d.modify r c vs).2.rows = d.rows
      ∧ (d.modify r c vs).2.data.length = d.data.length)
  ∧ (∀ (d : CSVData) (i : Nat), 1 ≤ i → i ≤ d.data.length →
      (d.delete i).1 = Except.ok ()
      ∧ (d.delete i).2.data.length = d.data.length - 1
      ∧ (d.delete i).2.rows = d.rows) := by
  refine ⟨?_, ?_, ?_⟩
  · intro lines
    simp [CSVData.from_lines]
  · intro d r c vs
    unfold CSVData.modify
    by_cases hb : r = 0 ∨ r > d.data.length
    · simp [hb]
    · rcases c with _ | idx <;>
        simp only [hb, if_false] <;>
        split_ifs <;>
        simp [List.length_set]
  · intro d i h1 h2
    have hb : ¬(i = 0 ∨ i > d.data.length) := by omega
    unfold CSVData.delete
    rw [if_neg hb]
    refine ⟨rfl, ?_, rfl⟩
    have hlt : i - 1 < d.data.length := by omega
    simp [List.length_eraseIdx, hlt]

/-- Claim C5's row-count clause fails on the code: a valid `delete 2` on a
three-record dataset succeeds but the stored `rows` field is still 3. -/
theorem delete_rows_field_stale :
    ((CSVData.from_lines [['a'], ['b'], ['c']]).delete 2).1 = Except.ok ()
  ∧ ((CSVData.from_lines [['a'], ['b'], ['c']]).delete 2).2.rows = 3 :=
  ⟨rfl, rfl⟩

/-- The amended C5: a valid `delete i` removes exactly the targeted record —
the data becomes the records before it followed by the records after it, so
all other records keep their relative order — and the number of records
drops by exactly one; the stored `rows` field, however, is not decremented. -/
theorem delete_removes_exactly_target (d : CSVData) (i : Nat)
    (h1 : 1 ≤ i) (h2 : i ≤ d.data.length) :
    (d.delete i).1 = Except.ok ()
  ∧ (d.delete i).2.data = d.data.take (i - 1) ++ d.data.drop i
  ∧ (d.delete i).2.data.length = d.data.length - 1
  ∧ (d.delete i).2.rows = d.rows := by
  have hb : ¬(i = 0 ∨ i > d.data.length) := by omega
  unfold CSVData.delete
  rw [if_neg hb]
  refine ⟨rfl, ?_, ?_, rfl⟩
  · show d.data.eraseIdx (i - 1) = _
    rw [List.eraseIdx_eq_take_drop_succ]
    have hi : i - 1 + 1 = i := by omega
    rw [hi]
  · show (d.data.eraseIdx (i - 1)).length = _
    have hlt : i - 1 < d.data.length := by omega
    simp [List.length_eraseIdx, hlt]

/-- The amended C5 at a concrete input: deleting record 2 of a two-record
dataset. -/
theorem delete_removes_exactly_target_witness :
    ((CSVData.from_lines [['x'], ['y']]).delete 2).1 = Except.ok ()
  ∧ ((CSVData.from_lines [['x'], ['y']]).delete 2).2.data
      = (CSVData.from_lines [['x'], ['y']]).data.take 1
        ++ (CSVData.from_lines [['x'], ['y']]).data.drop 2
  ∧ ((CSVData.from_lines [['x'], ['y']]).delete 2).2.data.length
      = (CSVData.from_lines [['x'], ['y']]).data.length - 1
  ∧ ((CSVData.from_lines [['x'], ['y']]).delete 2).2.rows
      = (CSVData.from_lines [['x'], ['y']]).rows :=
  delete_removes_exactly_target (CSVData.from_lines [['x'], ['y']]) 2
    (by decide) (by decide)

/-! Modify: bounds errors, mismatch errors, and the quoting of targets. -/

/-- Reading a `set` list at the written index gives the written element. -/
theorem getD_set_self {α : Type} (l : List α) (i : Nat) (a d' : α)
    (h : i < l.length) : (l.set i a).getD i d' = a := by
  simp [List.getD_eq_getElem?_getD, List.getElem?_set_self h]

/-- Reading a `set` list off the written index gives the old element. -/
theorem getD_set_ne {α : Type} (l : List α) (i j : Nat) (a d' : α)
    (h : i ≠ j) : (l.set i a).getD j d' = l.getD j d' := by
  simp [List.getD_eq_getElem?_getD, List.getElem?_set_ne h]

/-- Claim C6: with `row_index` 0 or beyond the record count, `modify` and
`delete` both fail with `RowIndexOutOfBound` and return the dataset exactly
as it was; with a valid row, a single-cell `modify` whose `col_index` is 0
or beyond that row's length fails with `ColumnIndexOutOfBound`, the dataset
again untouched. -/
theorem bounds_errors_leave_dataset_unchanged :
    (∀ (d : CSVData) (r : Nat) (c : Option Nat) (vs : List Cell),
      r = 0 ∨ r > d.data.length →
        d.modify r c vs = (Except.error Err.rowIndexOutOfBound, d)
        ∧ d.delete r = (Except.error Err.rowIndexOutOfBound, d))
  ∧ (∀ (d : CSVData) (r c : Nat) (v : Cell),
      1 ≤ r → r ≤ d.data.length →
      (c = 0 ∨ c > (d.data.getD (r - 1) []).length) →
        d.modify r (some c) [v] = (Except.error Err.columnIndexOutOfBound, d)) := by
  constructor
  · intro d r c vs hb
    constructor
    · unfold CSVData.modify
      rw [if_pos hb]
    · unfold CSVData.delete
      rw [if_pos hb]
  · intro d r c v h1 h2 hc
    have hb : ¬(r = 0 ∨ r > d.data.length) := by omega
    unfold CSVData.modify
    rw [if_neg hb]
    show (if (1 : Nat) = 1 then _ else _) = _
    rw [if_pos rfl, if_pos hc]

/-- Claim C7's replacement clause fails on the code: a whole-row `modify`
with a matching value count succeeds, but the stored row is the quoted
values, not the supplied values themselves — input `b` is stored as `"b"`. -/
theorem whole_row_modify_adds_quotes :
    ((CSVData.from_lines [['a']]).modify 1 none [['b']]).1 = Except.ok ()
  ∧ ((CSVData.from_lines [['a']]).modify 1 none [['b']]).2.data
      = [[['"', 'b', '"']]]
  ∧ [[['"', 'b', '"']]] ≠ ([[['b']]] : List (List Cell)) :=
  ⟨rfl, rfl, by decide⟩

/-- The amended C7: with a valid `row_index`, a whole-row `modify` whose
value count differs from the current length of that row fails with
`ReplacementLengthMismatch` and mutates nothing; a single-cell `modify`
whose value count is not 1 fails with `ValueLengthMismatch` and mutates
nothing; and a whole-row `modify` with a matching count replaces the entire
row by the supplied values, each wrapped in literal double quotes. -/
theorem modify_length_mismatch_errors (d : CSVData) (r : Nat) (vs : List Cell)
    (hr1 : 1 ≤ r) (hr2 : r ≤ d.data.length) :
    (vs.length ≠ (d.data.getD (r - 1) []).length →
      d.modify r none vs = (Except.error Err.replacementLengthMismatch, d))
  ∧ (∀ c : Nat, vs.length ≠ 1 →
      d.modify r (some c) vs = (Except.error Err.valueLengthMismatch, d))
  ∧ (vs.length = (d.data.getD (r - 1) []).length →
      d.modify r none vs
        = (Except.ok (), { d with data := d.data.set (r - 1) (vs.map quote) })) := by
  have hb : ¬(r = 0 ∨ r > d.data.length) := by omega
  refine ⟨?_, ?_, ?_⟩
  · intro hne
    unfold CSVData.modify
    rw [if_neg hb]
    show (if vs.length = (d.data.getD (r - 1) []).length then _ else _) = _
    rw [if_neg hne]
  · intro c hne
    unfold CSVData.modify
    rw [if_neg hb]
    show (if vs.length = 1 then _ else _) = _
    rw [if_neg hne]
  · intro heq
    unfold CSVData.modify
    rw [if_neg hb]
    show (if vs.length = (d.data.getD (r - 1) []).length then _ else _) = _
    rw [if_pos heq]

/-- The amended C7 at a concrete input: one value against a two-cell row. -/
theorem modify_length_mismatch_errors_witness :
    (CSVData.from_lines [['a', ',', 'b']]).modify 1 none [['z']]
      = (Except.error Err.replacementLengthMismatch,
          CSVData.from_lines [['a', ',', 'b']]) :=
  (modify_length_mismatch_errors (CSVData.from_lines [['a', ',', 'b']]) 1 [['z']]
    (by decide) (by decide)).1 (by decide)

/-- Claim C3: a successful single-cell `modify` stores exactly `quote v` —
the supplied value wrapped in one pair of literal double quotes — at the
targeted cell, leaves every other cell of the dataset unchanged, and the
saved file differs from the old one only in that row's rejoined line; a
successful whole-row `modify` stores the quoted values as the new row and
likewise changes only that line of the saved file. -/
theorem modify_quotes_target_cells (d : CSVData) (r : Nat) (v : Cell)
    (vs : List Cell) (hr1 : 1 ≤ r) (hr2 : r ≤ d.data.length) :
    (∀ c : Nat, 1 ≤ c → c ≤ (d.data.getD (r - 1) []).length →
      (d.modify r (some c) [v]).1 = Except.ok ()
      ∧ ((d.modify r (some c) [v]).2.data.getD (r - 1) []).getD (c - 1) []
          = quote v
      ∧ (∀ i j : Nat, ¬(i = r - 1 ∧ j = c - 1) →
          ((d.modify r (some c) [v]).2.data.getD i []).getD j []
            = (d.data.getD i []).getD j [])
      ∧ (d.modify r (some c) [v]).2.to_lines
          = d.to_lines.set (r - 1)
              (joinComma ((d.data.getD (r - 1) []).set (c - 1) (quote v))))
  ∧ (vs.length = (d.data.getD (r - 1) []).length →
      (d.modify r none vs).1 = Except.ok ()
      ∧ (d.modify r none vs).2.data = d.data.set (r - 1) (vs.map quote)
      ∧ (d.modify r none vs).2.to_lines
          = d.to_lines.set (r - 1) (joinComma (vs.map quote))) := by
  have hb : ¬(r = 0 ∨ r > d.data.length) := by omega
  have hrlt : r - 1 < d.data.length := by omega
  constructor
  · intro c hc1 hc2
    have hcb : ¬(c = 0 ∨ c > (d.data.getD (r - 1) []).length) := by omega
    have hclt : c - 1 < (d.data.getD (r - 1) []).length := by omega
    have hres : d.modify r (some c) [v]
        = (Except.ok (),
            { d with
              data := d.data.set (r - 1)
                ((d.data.getD (r - 1) []).set (c - 1) (quote v)) }) := by
      unfold CSVData.modify
      rw [if_neg hb]
      show (if (1 : Nat) = 1 then _ else _) = _
      rw [if_pos rfl, if_neg hcb]
      rfl
    rw [hres]
    refine ⟨rfl, ?_, ?_, ?_⟩
    · show ((d.data.set (r - 1) _).getD (r - 1) []).getD (c - 1) [] = quote v
      rw [getD_set_self _ _ _ _ hrlt, getD_set_self _ _ _ _ hclt]
    · intro i j hij
      by_cases hi : i = r - 1
      · have hj : c - 1 ≠ j := fun h => hij ⟨hi, h.symm⟩
        rw [hi, getD_set_self _ _ _ _ hrlt, getD_set_ne _ _ _ _ _ hj]
      · show ((d.data.set (r - 1) _).getD i []).getD j [] = _
        rw [getD_set_ne _ _ _ _ _ (fun h => hi h.symm)]
    · show CSVData.to_lines _ = _
      simp [CSVData.to_lines, List.map_set]
  · intro heq
    have hres : d.modify r none vs
        = (Except.ok (),
            { d with data := d.data.set (r - 1) (vs.map quote) }) := by
      unfold CSVData.modify
      rw [if_neg hb]
      show (if vs.length = (d.data.getD (r - 1) []).length then _ else _) = _
      rw [if_pos heq]
    rw [hres]
    refine ⟨rfl, rfl, ?_⟩
    simp [CSVData.to_lines, List.map_set]

/-- Claim C3 at the spec's own scenario: on the file `a,b,c` / `1,2,3`,
`modify(row 2, col 2, X)` succeeds and cell (2,2) becomes `"X"`. -/
theorem modify_quotes_target_cells_witness :
    ((CSVData.from_lines
        [['a', ',', 'b', ',', 'c'], ['1', ',', '2', ',', '3']]).modify
          2 (some 2) [['X']]).1 = Except.ok ()
  ∧ (((CSVData.from_lines
        [['a', ',', 'b', ',', 'c'], ['1', ',', '2', ',', '3']]).modify
          2 (some 2) [['X']]).2.data.getD 1 []).getD 1 [] = quote ['X'] := by
  have h := (modify_quotes_target_cells
    (CSVData.from_lines [['a', ',', 'b', ',', 'c'], ['1', ',', '2', ',', '3']])
    2 ['X'] [] (by decide) (by decide)).1 2 (by decide) (by decide)
  exact ⟨h.1, h.2.1⟩

/-! The width computation: success condition and the bounds it guarantees. -/

/-- A successful width update keeps the widths list's length. -/
theorem updateWidths_length : ∀ (row : List Cell) (ws ws' : List Nat),
    updateWidths ws row = some ws' → ws'.length = ws.length := by
  intro row
  induction row with
  | nil =>
    intro ws ws' h
    simp only [updateWidths, Option.some.injEq] at h
    rw [← h]
  | cons c cs ih =>
    intro ws ws' h
    cases ws with
    | nil => simp [updateWidths] at h
    | cons w wsr =>
      simp only [updateWidths, Option.map_eq_some'] at h
      obtain ⟨t, ht, rfl⟩ := h
      simp [ih wsr t ht]

/-- A successful width update means the row was not longer than the widths. -/
theorem updateWidths_row_le : ∀ (row : List Cell) (ws ws' : List Nat),
    updateWidths ws row = some ws' → row.length ≤ ws.length := by
  intro row
  induction row with
  | nil => intro ws ws' _; simp
  | cons c cs ih =>
    intro ws ws' h
    cases ws with
    | nil => simp [updateWidths] at h
    | cons w wsr =>
      simp only [updateWidths, Option.map_eq_some'] at h
      obtain ⟨t, ht, rfl⟩ := h
      simpa using ih wsr t ht

/-- A row that fits inside the widths list updates it successfully. -/
theorem updateWidths_isSome : ∀ (row : List Cell) (ws : List Nat),
    row.length ≤ ws.length → ∃ ws', updateWidths ws row = some ws' := by
  intro row
  induction row with
  | nil => intro ws _; exact ⟨ws, by simp [updateWidths]⟩
  | cons c cs ih =>
    intro ws h
    cases ws with
    | nil => simp at h
    | cons w wsr =>
      obtain ⟨t, ht⟩ := ih wsr (by simpa using h)
      exact ⟨Nat.max w c.length :: t, by simp [updateWidths, ht]⟩

/-- Width updates only grow the widths, position by position. -/
theorem updateWidths_le : ∀ (row : List Cell) (ws ws' : List Nat),
    updateWidths ws row = some ws' → ∀ i, ws.getD i 0 ≤ ws'.getD i 0 := by
  intro row
  induction row with
  | nil =>
    intro ws ws' h i
    simp only [updateWidths, Option.some.injEq] at h
    rw [h]
  | cons c cs ih =>
    intro ws ws' h i
    cases ws with
    | nil => simp [updateWidths] at h
    | cons w wsr =>
      simp only [updateWidths, Option.map_eq_some'] at h
      obtain ⟨t, ht, rfl⟩ := h
      cases i with
      | zero => simp
      | succ i => simpa using ih wsr t ht i

/-- After a successful update the widths bound that row's cell lengths. -/
theorem updateWidths_covers : ∀ (row : List Cell) (ws ws' : List Nat),
    updateWidths ws row = some ws' →
    ∀ i, i < row.length → (row.getD i []).length ≤ ws'.getD i 0 := by
  intro row
  induction row with
  | nil => intro ws ws' _ i hi; simp at hi
  | cons c cs ih =>
    intro ws ws' h i hi
    cases ws with
    | nil => simp [updateWidths] at h
    | cons w wsr =>
      simp only [updateWidths, Option.map_eq_some'] at h
      obtain ⟨t, ht, rfl⟩ := h
      cases i with
      | zero => simp
      | succ i => simpa using ih wsr t ht i (by simpa using hi)

/-- A successful fold keeps the widths list's length. -/
theorem calcWidths_length : ∀ (rows : List (List Cell)) (ws out : List Nat),
    calcWidths ws rows = some out → out.length = ws.length := by
  intro rows
  induction rows with
  | nil =>
    intro ws out h
    simp only [calcWidths, Option.some.injEq] at h
    rw [← h]
  | cons row rest ih =>
    intro ws out h
    simp only [calcWidths] at h
    cases hu : updateWidths ws row with
    | none => rw [hu] at h; exact absurd h (by simp)
    | some ws1 =>
      rw [hu] at h
      rw [ih ws1 out h, updateWidths_length row ws ws1 hu]

/-- A successful fold means no row was longer than the widths list. -/
theorem calcWidths_rows_le : ∀ (rows : List (List Cell)) (ws out : List Nat),
    calcWidths ws rows = some out → ∀ r ∈ rows, r.length ≤ ws.length := by
  intro rows
  induction rows with
  | nil => intro ws out _ r hr; simp at hr
  | cons row rest ih =>
    intro ws out h r hr
    simp only [calcWidths] at h
    cases hu : updateWidths ws row with
    | none => rw [hu] at h; exact absurd h (by simp)
    | some ws1 =>
      rw [hu] at h
      rcases List.mem_cons.mp hr with hr | hr
      · exact hr ▸ updateWidths_row_le row ws ws1 hu
      · exact (updateWidths_length row ws ws1 hu) ▸ ih ws1 out h r hr

/-- When every row fits inside the widths list, the fold succeeds. -/
theorem calcWidths_isSome : ∀ (rows : List (List Cell)) (ws : List Nat),
    (∀ r ∈ rows, r.length ≤ ws.length) → ∃ out, calcWidths ws rows = some out := by
  intro rows
  induction rows with
  | nil => intro ws _; exact ⟨ws, by simp [calcWidths]⟩
  | cons row rest ih =>
    intro ws h
    obtain ⟨ws1, hu⟩ := updateWidths_isSome row ws (h row (List.mem_cons_self row rest))
    obtain ⟨out, ho⟩ := ih ws1 (fun r hr =>
      (updateWidths_length row ws ws1 hu) ▸ h r (List.mem_cons_of_mem row hr))
    exact ⟨out, by simp only [calcWidths, hu]; exact ho⟩

/-- The fold only grows the widths, position by position. -/
theorem calcWidths_le : ∀ (rows : List (List Cell)) (ws out : List Nat),
    calcWidths ws rows = some out → ∀ i, ws.getD i 0 ≤ out.getD i 0 := by
  intro rows
  induction rows with
  | nil =>
    intro ws out h i
    simp only [calcWidths, Option.some.injEq] at h
    rw [h]
  | cons row rest ih =>
    intro ws out h i
    simp only [calcWidths] at h
    cases hu : updateWidths ws row with
    | none => rw [hu] at h; exact absurd h (by simp)
    | some ws1 =>
      rw [hu] at h
      exact le_trans (updateWidths_le row ws ws1 hu i) (ih ws1 out h i)

/-- The computed widths bound every cell length of every row. -/
theorem calcWidths_covers : ∀ (rows : List (List Cell)) (ws out : List Nat),
    calcWidths ws rows = some out →
    ∀ r ∈ rows, ∀ i, i < r.length → (r.getD i []).length ≤ out.getD i 0 := by
  intro rows
  induction rows with
  | nil => intro ws out _ r hr; simp at hr
  | cons row rest ih =>
    intro ws out h r hr i hi
    simp only [calcWidths] at h
    cases hu : updateWidths ws row with
    | none => rw [hu] at h; exact absurd h (by simp)
    | some ws1 =>
      rw [hu] at h
      rcases List.mem_cons.mp hr with hr | hr
      · exact le_trans (hr ▸ updateWidths_covers row ws ws1 hu i (hr ▸ hi))
          (calcWidths_le rest ws1 out h i)
      · exact ih ws1 out h r hr i hi

/-! Formatting succeeds whenever the widths cover the row. -/

/-- Padding succeeds when the row fits inside the widths and every cell is
no longer than its column's width. -/
theorem padCells_isSome : ∀ (row : List Cell) (ws : List Nat),
    row.length ≤ ws.length →
    (∀ i, i < row.length → (row.getD i []).length ≤ ws.getD i 0) →
    ∃ out, padCells row ws = some out := by
  intro row
  induction row with
  | nil => intro ws _ _; exact ⟨[], by simp [padCells]⟩
  | cons c cs ih =>
    intro ws hlen hbound
    cases ws with
    | nil => simp at hlen
    | cons w wsr =>
      have hc : c.length ≤ w := by simpa using hbound 0 (by simp)
      obtain ⟨t, ht⟩ := ih wsr (by simpa using hlen)
        (fun i hi => by simpa using hbound (i + 1) (by simpa using hi))
      exact ⟨(c ++ List.replicate (w - c.length) ' ') :: t,
        by simp [padCells, hc, ht]⟩

/-- Formatting a list of rows succeeds, line for line, when each row's
`format_row` succeeds. -/
theorem formatRows_isSome : ∀ (rows : List (List Cell)) (ws : List Nat),
    (∀ r ∈ rows, ∃ line, CSVData.format_row r ws = some line) →
    ∃ out, formatRows rows ws = some out ∧ out.length = rows.length := by
  intro rows
  induction rows with
  | nil => intro ws _; exact ⟨[], rfl, rfl⟩
  | cons row rest ih =>
    intro ws h
    obtain ⟨line, hl⟩ := h row (List.mem_cons_self row rest)
    obtain ⟨out, ho, hlen⟩ := ih ws (fun r hr => h r (List.mem_cons_of_mem row hr))
    exact ⟨line :: out, by simp [formatRows, hl, ho], by simp [hlen]⟩

/-- With the whole-dataset widths in hand, every row of the dataset
formats successfully. -/
theorem format_row_isSome_of_calc (d : CSVData) (ws : List Nat)
    (hws : d.calculate_max_col_width = some ws) (r : List Cell)
    (hr : r ∈ d.data) : ∃ line, CSVData.format_row r ws = some line := by
  have hwslen : ws.length = d.cols := by
    have := calcWidths_length d.data (List.replicate d.cols 0) ws hws
    simpa using this
  have hrle : r.length ≤ ws.length := by
    have := calcWidths_rows_le d.data (List.replicate d.cols 0) ws hws r hr
    simpa [hwslen] using this
  have hcov := calcWidths_covers d.data (List.replicate d.cols 0) ws hws r hr
  obtain ⟨out, hout⟩ := padCells_isSome r ws hrle hcov
  exact ⟨joinPipe out, by simp [CSVData.format_row, hout]⟩

/-- When every row fits inside `cols`, the width computation succeeds. -/
theorem calc_isSome_of_fit (d : CSVData)
    (h : ∀ r ∈ d.data, r.length ≤ d.cols) :
    ∃ ws, d.calculate_max_col_width = some ws := by
  obtain ⟨ws, hws⟩ := calcWidths_isSome d.data (List.replicate d.cols 0)
    (fun r hr => by simpa using h r hr)
  exact ⟨ws, hws⟩

/-- When every row fits inside `cols`, `display` succeeds and prints one
line per record. -/
theorem display_isSome_of_fit (d : CSVData)
    (h : ∀ r ∈ d.data, r.length ≤ d.cols) :
    ∃ out, d.display = some out ∧ out.length = d.data.length := by
  obtain ⟨ws, hws⟩ := calc_isSome_of_fit d h
  obtain ⟨out, ho, hlen⟩ := formatRows_isSome d.data ws
    (fun r hr => format_row_isSome_of_calc d ws hws r hr)
  exact ⟨out, by simp only [CSVData.display, hws]; exact ho, hlen⟩

/-- When every row fits inside `cols`, `paginate` never panics, whatever
the requested range. -/
theorem paginate_isSome_of_fit (d : CSVData)
    (h : ∀ r ∈ d.data, r.length ≤ d.cols) (start end_ : Nat) :
    ∃ out, d.paginate start end_ = some out := by
  obtain ⟨ws, hws⟩ := calc_isSome_of_fit d h
  obtain ⟨out, ho, -⟩ := formatRows_isSome
    ((d.data.drop (usub start 1)).take (usub (uadd end_ 1) start)) ws
    (fun r hr => format_row_isSome_of_calc d ws hws r
      (List.mem_of_mem_drop (List.mem_of_mem_take hr)))
  exact ⟨out, by simp only [CSVData.paginate, hws]; exact ho⟩

/-! Claims C9 and C10: which raggedness breaks the rendering. -/

/-- Claim C10: on a dataset in which every row has at most `cols` cells
(the first row's cell count at load time), the shared width computation and
row formatting never index out of range and the padding subtraction never
underflows, so `display` prints one line per record and `paginate` never
panics whatever the range; and a loaded file whose second line has more
fields than its first makes the width computation index out of bounds. -/
theorem display_paginate_safe_when_rows_fit (d : CSVData)
    (h : ∀ r ∈ d.data, r.length ≤ d.cols) :
    (∃ out, d.display = some out ∧ out.length = d.data.length)
  ∧ (∀ start end_ : Nat, ∃ out, d.paginate start end_ = some out)
  ∧ (CSVData.from_lines [['a'], ['b', ',', 'c']]).calculate_max_col_width
      = none :=
  ⟨display_isSome_of_fit d h, paginate_isSome_of_fit d h, rfl⟩

/-- Claim C10 at a concrete input: the loaded file `a,b` (one line, two
fields) renders safely. -/
theorem display_paginate_safe_when_rows_fit_witness :
    (∃ out, (CSVData.from_lines [['a', ',', 'b']]).display = some out
      ∧ out.length = (CSVData.from_lines [['a', ',', 'b']]).data.length)
  ∧ (∀ start end_ : Nat,
      ∃ out, (CSVData.from_lines [['a', ',', 'b']]).paginate start end_ = some out)
  ∧ (CSVData.from_lines [['a'], ['b', ',', 'c']]).calculate_max_col_width
      = none :=
  display_paginate_safe_when_rows_fit (CSVData.from_lines [['a', ',', 'b']])
    (by decide)

/-- Claim C9 is false of the code: on datasets whose only raggedness is
rows with fewer cells than `cols`, neither `display` nor any `paginate`
call panics — a short row never makes the width/format computation read out
of bounds (it is rows longer than `cols` that do, see the companion
theorem). -/
theorem no_oob_from_short_rows :
    (∃ d : CSVData,
      (∀ r ∈ d.data, r.length ≤ d.cols)
      ∧ (∃ r ∈ d.data, r.length < d.cols)
      ∧ (d.display = none ∨ ∃ start end_ : Nat, d.paginate start end_ = none))
    = False := by
  apply eq_false
  rintro ⟨d, hfit, -, hbad⟩
  rcases hbad with hd | ⟨s, e, hp⟩
  · obtain ⟨out, hout, -⟩ := display_isSome_of_fit d hfit
    rw [hd] at hout
    exact Option.noConfusion hout
  · obtain ⟨out, hout⟩ := paginate_isSome_of_fit d hfit s e
    rw [hp] at hout
    exact Option.noConfusion hout

/-- The amended C9: the width computation (and with it `display`) fails on
out-of-bounds indexing exactly when some row has more cells than `cols`;
rows with fewer cells than `cols` never cause an out-of-bounds access. -/
theorem display_succeeds_iff_rows_fit_cols (d : CSVData) :
    (d.calculate_max_col_width.isSome ↔ ∀ r ∈ d.data, r.length ≤ d.cols)
  ∧ (d.display.isSome ↔ ∀ r ∈ d.data, r.length ≤ d.cols) := by
  have hfwd : d.calculate_max_col_width.isSome → ∀ r ∈ d.data, r.length ≤ d.cols := by
    intro hs r hr
    obtain ⟨ws, hws⟩ := Option.isSome_iff_exists.mp hs
    have := calcWidths_rows_le d.data (List.replicate d.cols 0) ws hws r hr
    simpa using this
  constructor
  · constructor
    · exact hfwd
    · intro h
      obtain ⟨ws, hws⟩ := calc_isSome_of_fit d h
      simp [hws]
  · constructor
    · intro hs
      apply hfwd
      unfold CSVData.display at hs
      cases hc : d.calculate_max_col_width with
      | none => rw [hc] at hs; simp at hs
      | some ws => simp [hc]
    · intro h
      obtain ⟨out, hout, -⟩ := display_isSome_of_fit d h
      simp [hout]

/-! Claims C2 and C8: paginate's slice arithmetic, in wrapping usize. -/

/-- Wrapping addition below the wrap point is plain addition. -/
theorem uadd_eq (a b : Nat) (h : a + b < USIZE) : uadd a b = a + b :=
  Nat.mod_eq_of_lt h

/-- Wrapping subtraction with no underflow is plain subtraction. -/
theorem usub_eq (a b : Nat) (hb : b ≤ a) (ha : a < USIZE) : usub a b = a - b := by
  have hbU : b < USIZE := lt_of_le_of_lt hb ha
  unfold usub
  rw [Nat.mod_eq_of_lt ha, Nat.mod_eq_of_lt hbU]
  have h1 : a + (USIZE - b) = (a - b) + USIZE := by omega
  rw [h1, Nat.add_mod_right]
  exact Nat.mod_eq_of_lt (by omega)

/-- Wrapping subtraction with underflow lands just below the wrap point. -/
theorem usub_wrap (a b : Nat) (hab : a < b) (hb : b < USIZE) :
    usub a b = USIZE - (b - a) := by
  have haU : a < USIZE := lt_trans hab hb
  unfold usub
  rw [Nat.mod_eq_of_lt haU, Nat.mod_eq_of_lt hb]
  have h1 : a + (USIZE - b) = USIZE - (b - a) := by omega
  rw [h1]
  have hU0 : 0 < USIZE := by norm_num [USIZE]
  exact Nat.mod_eq_of_lt (by omega)

/-- Claim C2 fails on the code: on the three-record file `a` / `b` / `c`,
`paginate(3, 1)` has `start > end`, yet it neither prints nothing nor fails
— the wrapping `end + 1 - start` takes almost the whole address space, and
row 3 is printed. -/
theorem paginate_start_gt_end_prints_rows :
    (3 : Nat) > 1
  ∧ (CSVData.from_lines [['a'], ['b'], ['c']]).paginate 3 1 = some [['c']]
  ∧ some [['c']] ≠ some ([] : List Cell) :=
  ⟨by decide, rfl, by decide⟩

/-- The amended C2: on a dataset whose rows all fit within `cols` (on any
other the width computation panics before any row handling, see C8–C10)
and whose record count, `start` and `end + 1` are within `usize`: when
`start` is 0, larger than the record count, or exactly `end + 1`,
`paginate` prints nothing; but when `start > end + 1` and `start` is a
valid row position, the wrapping subtraction makes the take length huge
and `paginate` prints exactly the rows from `start` through the last
record, in order, formatted with the whole-dataset widths — a nonempty
output, neither nothing nor a failure. The dataset is taken read-only
throughout, so it is unchanged in every case. -/
theorem paginate_out_of_range_behavior (d : CSVData)
    (hfit : ∀ r ∈ d.data, r.length ≤ d.cols)
    (hdlen : d.data.length < USIZE)
    (start end_ : Nat) (hs : start < USIZE) (he : end_ + 1 < USIZE) :
    ((start = 0 ∨ start > d.data.length ∨ start = end_ + 1) →
      d.paginate start end_ = some [])
  ∧ (1 ≤ start → start ≤ d.data.length → end_ + 1 < start →
      ∃ ws lines, d.calculate_max_col_width = some ws
        ∧ d.paginate start end_ = some lines
        ∧ formatRows (d.data.drop (start - 1)) ws = some lines
        ∧ lines.length = d.data.length - (start - 1)
        ∧ lines ≠ []) := by
  obtain ⟨ws, hws⟩ := calc_isSome_of_fit d hfit
  have hU0 : 0 < USIZE := by norm_num [USIZE]
  constructor
  · intro hcase
    have hslice : (d.data.drop (usub start 1)).take (usub (uadd end_ 1) start)
        = [] := by
      rcases hcase with h0 | hgt | heq
      · subst h0
        have hU1 : (1 : Nat) < USIZE := by norm_num [USIZE]
        have hz : usub 0 1 = USIZE - 1 := by
          unfold usub
          rw [Nat.zero_mod, Nat.mod_eq_of_lt hU1, Nat.zero_add]
          exact Nat.mod_eq_of_lt (by omega)
        rw [hz, List.drop_eq_nil_of_le (by omega)]
        simp
      · rw [usub_eq start 1 (by omega) hs, List.drop_eq_nil_of_le (by omega)]
        simp
      · rw [heq, uadd_eq end_ 1 he, usub_eq (end_ + 1) (end_ + 1) le_rfl he]
        simp
    simp only [CSVData.paginate, hws]
    rw [hslice]
    rfl
  · intro h1 h2 h3
    have hskip : usub start 1 = start - 1 := usub_eq start 1 (by omega) hs
    have htake : usub (uadd end_ 1) start = USIZE - (start - (end_ + 1)) := by
      rw [uadd_eq end_ 1 he]
      exact usub_wrap (end_ + 1) start h3 hs
    have hrest_len : (d.data.drop (start - 1)).length
        = d.data.length - (start - 1) := List.length_drop _ _
    have htake_all : (d.data.drop (start - 1)).take (USIZE - (start - (end_ + 1)))
        = d.data.drop (start - 1) := by
      apply List.take_of_length_le
      rw [hrest_len]
      omega
    obtain ⟨lines, hl, hlen⟩ := formatRows_isSome (d.data.drop (start - 1)) ws
      (fun r hr => format_row_isSome_of_calc d ws hws r (List.mem_of_mem_drop hr))
    refine ⟨ws, lines, hws, ?_, hl, ?_, ?_⟩
    · simp only [CSVData.paginate, hws]
      rw [hskip, htake, htake_all]
      exact hl
    · rw [hlen, hrest_len]
    · apply List.ne_nil_of_length_pos
      rw [hlen, hrest_len]
      omega

/-- The amended C2 at a concrete input: `paginate(1, 0)` on a one-record
dataset, where `start = end + 1`, prints nothing. -/
theorem paginate_out_of_range_behavior_witness :
    (CSVData.from_lines [['a']]).paginate 1 0 = some [] :=
  (paginate_out_of_range_behavior (CSVData.from_lines [['a']]) (by decide)
    (by decide) 1 0 (by decide) (by decide)).1 (Or.inr (Or.inr rfl))

/-- Claim C8 fails on the code as universally stated: on the loaded file
`a` / `b,c` (a second line with more fields than the first) the width
computation panics, so `paginate(1, 1)` prints nothing at all instead of
the first row. -/
theorem paginate_ragged_prints_nothing :
    (CSVData.from_lines [['a'], ['b', ',', 'c']]).data.length = 2
  ∧ (CSVData.from_lines [['a'], ['b', ',', 'c']]).paginate 1 1 = none
  ∧ ((∃ lines, (CSVData.from_lines [['a'], ['b', ',', 'c']]).paginate 1 1
        = some lines) = False) := by
  have h : (CSVData.from_lines [['a'], ['b', ',', 'c']]).paginate 1 1 = none := rfl
  exact ⟨rfl, h, by simp [h]⟩

/-- The amended C8: on a dataset whose rows all fit inside `cols`, every
`paginate(start, end)` with `1 ≤ start ≤ end` (and `end + 1` within usize)
prints exactly the rows from `start` to `min(end, row_count)`, in order,
each formatted against the widths computed over the whole dataset. -/
theorem paginate_in_range_prints_slice (d : CSVData)
    (hfit : ∀ r ∈ d.data, r.length ≤ d.cols)
    (start end_ : Nat) (h1 : 1 ≤ start) (h2 : start ≤ end_)
    (he : end_ + 1 < USIZE) :
    ∃ ws lines, d.calculate_max_col_width = some ws
      ∧ d.paginate start end_ = some lines
      ∧ formatRows ((d.data.take end_).drop (start - 1)) ws = some lines
      ∧ lines.length = min end_ d.data.length + 1 - start := by
  obtain ⟨ws, hws⟩ := calc_isSome_of_fit d hfit
  have hs : start < USIZE := by omega
  have hskip : usub start 1 = start - 1 := usub_eq start 1 h1 hs
  have htake : usub (uadd end_ 1) start = end_ + 1 - start := by
    rw [uadd_eq end_ 1 he]
    exact usub_eq (end_ + 1) start (by omega) he
  have hslice : (d.data.drop (start - 1)).take (end_ + 1 - start)
      = (d.data.take end_).drop (start - 1) := by
    rw [List.drop_take]
    have heq2 : end_ - (start - 1) = end_ + 1 - start := by omega
    rw [heq2]
  obtain ⟨lines, hl, hlen⟩ := formatRows_isSome
    ((d.data.take end_).drop (start - 1)) ws
    (fun r hr => format_row_isSome_of_calc d ws hws r
      (List.mem_of_mem_take (List.mem_of_mem_drop hr)))
  refine ⟨ws, lines, hws, ?_, hl, ?_⟩
  · simp only [CSVData.paginate, hws]
    rw [hskip, htake, hslice]
    exact hl
  · rw [hlen, List.length_drop, List.length_take]
    omega

/-- The amended C8 at the spec's scenario shape: `paginate(1, 1)` on a
two-record dataset prints exactly the first row. -/
theorem paginate_in_range_prints_slice_witness :
    ∃ ws lines,
      (CSVData.from_lines [['a'], ['b']]).calculate_max_col_width = some ws
      ∧ (CSVData.from_lines [['a'], ['b']]).paginate 1 1 = some lines
      ∧ formatRows (((CSVData.from_lines [['a'], ['b']]).data.take 1).drop 0)
          ws = some lines
      ∧ lines.length
          = min 1 (CSVData.from_lines [['a'], ['b']]).data.length + 1 - 1 :=
  paginate_in_range_prints_slice (CSVData.from_lines [['a'], ['b']])
    (by decide) 1 1 (by decide) (by decide) (by decide)
